import Mathlib

/-!
Verification of the GAM fitting core of `statsmodels/gam/gam.py`: the
augmented-matrix builder `make_augmented_matrix`, the penalized WLS solver
`penalized_wls`, the P-IRLS engine `GLMGam._fit_pirls`, the penalty-weight
selection bookkeeping of `GLMGam.select_penweight`, the alpha normalization of
`GLMGam._check_alpha`, and the hat-matrix / effective-degrees-of-freedom
accounting of `GLMGAMResults`.

The code is shallowly embedded over the rationals.  Vectors are `Fin n → ℚ`,
matrices are `Matrix (Fin n) (Fin p) ℚ`.  External collaborators (the GLM
family, the link function, the ordinary WLS solver `lm.WLS(...).fit()`,
`matrix_sqrt`, `np.sqrt`, `np.exp`, the model's `hessian_factor` and
`estimate_scale`) are opaque function parameters, collected in `Collab`.
The mutable per-model bookkeeping fields that `_fit_pirls` overwrites
(`self.scale`, `self.weights`, `self.df_resid`, ...) are threaded explicitly
as a `Scratch` state.
-/

namespace StatsmodelsGam

open Matrix

/-- Result object of an ordinary weighted-least-squares fit
(`lm.WLS(aug_y, aug_x, aug_weights).fit()`, an external collaborator):
coefficient vector and normalized covariance matrix. -/
structure WlsResults (p : Nat) where
  params : Fin p → ℚ
  normalized_cov_params : Matrix (Fin p) (Fin p) ℚ

/-- `make_augmented_matrix(endog, exog, penalty_matrix, weights)` (gam.py lines
729-767).  `msqrt` stands for the external `matrix_sqrt` collaborator
(statsmodels.tools.linalg, not under src/); per the spec it returns a p×p
matrix square root `R` of the penalty matrix with `RᵀR = S`.  The source
builds `y1` as a zero vector of length n+p whose first n entries are
overwritten with `y`, stacks `x` on `rs`, and concatenates `weights` with a
vector of ones of length `rs.shape[0]`; rows are indexed by `Fin n ⊕ Fin p`
(the first block are the n data rows, the second the p penalty rows).
Returns `(y1, x1, w1)` in the order of the source. -/
def make_augmented_matrix {n p : Nat}
    (msqrt : Matrix (Fin p) (Fin p) ℚ → Matrix (Fin p) (Fin p) ℚ)
    (endog : Fin n → ℚ) (exog : Matrix (Fin n) (Fin p) ℚ)
    (penalty_matrix : Matrix (Fin p) (Fin p) ℚ) (weights : Fin n → ℚ) :
    ((Fin n ⊕ Fin p) → ℚ) × Matrix (Fin n ⊕ Fin p) (Fin p) ℚ × ((Fin n ⊕ Fin p) → ℚ) :=
  let rs := msqrt penalty_matrix
  let x1 := Matrix.fromRows exog rs
  let y1 : (Fin n ⊕ Fin p) → ℚ := Sum.elim endog fun _ => 0
  let w1 : (Fin n ⊕ Fin p) → ℚ := Sum.elim weights fun _ => 1
  (y1, x1, w1)

/-- The augmented triple exactly as the spec words it (section 4.1): augmented
response = y followed by p zeros, augmented design = X stacked vertically on a
matrix square root R of S, augmented weights = w followed by p ones. -/
def make_augmented_matrix_spec {n p : Nat} (R : Matrix (Fin p) (Fin p) ℚ)
    (y : Fin n → ℚ) (X : Matrix (Fin n) (Fin p) ℚ) (w : Fin n → ℚ) :
    ((Fin n ⊕ Fin p) → ℚ) × Matrix (Fin n ⊕ Fin p) (Fin p) ℚ × ((Fin n ⊕ Fin p) → ℚ) :=
  (Sum.elim y fun _ => 0, Matrix.fromRows X R, Sum.elim w fun _ => 1)

/-- `penalized_wls(endog, exog, penalty_matrix, weights)` (gam.py lines
699-726): multiplies its penalty-matrix argument by two (`2 * s`, line 720),
builds the augmented system with `make_augmented_matrix` and runs the external
ordinary WLS solver on it; `params.ravel()` is the identity on our 1-D
coefficient vectors. -/
def penalized_wls {n p : Nat}
    (msqrt : Matrix (Fin p) (Fin p) ℚ → Matrix (Fin p) (Fin p) ℚ)
    (wls_fit : ((Fin n ⊕ Fin p) → ℚ) → Matrix (Fin n ⊕ Fin p) (Fin p) ℚ →
      ((Fin n ⊕ Fin p) → ℚ) → WlsResults p)
    (endog : Fin n → ℚ) (exog : Matrix (Fin n) (Fin p) ℚ)
    (penalty_matrix : Matrix (Fin p) (Fin p) ℚ) (weights : Fin n → ℚ) : WlsResults p :=
  let aug := make_augmented_matrix msqrt endog exog ((2 : ℚ) • penalty_matrix) weights
  let wls_results := wls_fit aug.1 aug.2.1 aug.2.2
  { wls_results with params := wls_results.params }

/-- Weighted residual sum of squares of the coefficient vector `beta` on the
weighted regression data `(w, y, X)`. -/
def wrss {p : Nat} {I : Type} [Fintype I] (w y : I → ℚ) (X : Matrix I (Fin p) ℚ)
    (beta : Fin p → ℚ) : ℚ :=
  ∑ i, w i * (y i - X.mulVec beta i) ^ 2

/-- Default absolute tolerance of `np.allclose` (1e-8). -/
def np_atol : ℚ := 1 / 100000000

/-- `np.allclose(v, 0)` with the numpy defaults: since the comparison target is
zero, the relative-tolerance term `rtol * |0|` vanishes and the test is
`|v i| <= atol` for every component. -/
def np_allclose_zero {n : Nat} (v : Fin n → ℚ) : Bool :=
  decide (∀ i, |v i| ≤ np_atol)

/-- Modelled from the spec: `_check_convergence` is imported from the GLM
module (generalized_linear_model.py, not under src/).  Per the spec it
compares consecutive deviance values against the tolerance (absolute plus
relative change) with a minimum-iteration guard; it is called as
`_check_convergence(criterion, iteration, tol, 0)` where `criterion` is the
deviance history whose entry 0 is `np.inf` (modelled as `none`), so at
iteration `i` it compares `criterion[i]` with `criterion[i+1]` and an
infinite entry is never close to a finite one. -/
def check_convergence (criterion : List (Option ℚ)) (iteration : Nat)
    (atol rtol : ℚ) : Bool :=
  match criterion.get? iteration, criterion.get? (iteration + 1) with
  | some (some a), some (some b) => decide (|a - b| ≤ atol + rtol * |b|)
  | _, _ => false

/-- The fit history dict of `_fit_pirls`: `history['params']` and
`history['deviance']`, initialized to `[None, start_params]` and
`[np.inf, dev]` (line 519); `none` models `None`/`np.inf`. -/
structure History (p : Nat) where
  params : List (Option (Fin p → ℚ))
  deviance : List (Option ℚ)

/-- Modelled from the spec: `GLM._update_history` (not under src/) appends the
new coefficient vector and the new deviance to the fit history
(spec section 4.3, step 4: append (coefficients, deviance) to history). -/
def update_history {p : Nat} (wls_results : WlsResults p) (dev : ℚ)
    (history : History p) : History p :=
  { params := history.params ++ [some wls_results.params],
    deviance := history.deviance ++ [some dev] }

/-- The external collaborators used by the GAM core, as opaque functions: the
GLM family and link rules, the model-level `estimate_scale` (which reads the
model's current `df_resid` bookkeeping field) and `hessian_factor`, the
results-level `fittedvalues`, `np.sqrt`, `matrix_sqrt`, and the ordinary WLS
solver applied to the augmented system. -/
structure Collab (n p : Nat) where
  starting_mu : (Fin n → ℚ) → Fin n → ℚ
  link_predict : (Fin n → ℚ) → Fin n → ℚ
  fitted : (Fin n → ℚ) → Fin n → ℚ
  link_deriv : (Fin n → ℚ) → Fin n → ℚ
  var_weights : (Fin n → ℚ) → Fin n → ℚ
  deviance : (Fin n → ℚ) → (Fin n → ℚ) → ℚ
  estimate_scale : Option ℚ → (Fin n → ℚ) → ℚ → ℚ
  hessian_factor : (Fin p → ℚ) → Fin n → ℚ
  fittedvalues : (Fin p → ℚ) → Fin n → ℚ
  np_sqrt : ℚ → ℚ
  msqrt : Matrix (Fin p) (Fin p) ℚ → Matrix (Fin p) (Fin p) ℚ
  wls_fit : ((Fin n ⊕ Fin p) → ℚ) → Matrix (Fin n ⊕ Fin p) (Fin p) ℚ →
    ((Fin n ⊕ Fin p) → ℚ) → WlsResults p

/-- The immutable configuration of a `GLMGam` model: response, column-stacked
design matrix, the penalty-matrix generator `penal.penalty_matrix(alpha)`
(an external collaborator, linear in alpha per the spec), the offset/exposure
term, and the collaborator functions. -/
structure ModelConfig (n p : Nat) where
  endog : Fin n → ℚ
  exog : Matrix (Fin n) (Fin p) ℚ
  penalty_matrix : List ℚ → Matrix (Fin p) (Fin p) ℚ
  offset_exposure : Fin n → ℚ
  collab : Collab n p

/-- The mutable bookkeeping fields on the model instance that `_fit_pirls`
and `GLMGAMResults.__init__` overwrite: `self.scale`, `self.scaletype`,
`self.df_model`, `self.df_resid`, `self.data_weights`, `self.weights`,
`self.mu`. -/
structure Scratch (n : Nat) where
  scale : ℚ
  scaletype : Option ℚ
  df_model : ℚ
  df_resid : ℚ
  data_weights : Option (Fin n → ℚ)
  weights : Option (Fin n → ℚ)
  mu : Option (Fin n → ℚ)

/-- Errors surfaced by the embedded `_fit_pirls`: the explicit
`PerfectSeparationError` raise (lines 550-552), and the `TypeError` that
results from constructing `GLMGAMResults` with `normalized_cov_params=None`
(its `__init__` computes `edf`, which evaluates `None * scale`). -/
inductive PirlsError where
  | perfectSeparation
  | typeErrorNone
  deriving DecidableEq

/-- The per-iteration loop state of `_fit_pirls`: the local variables
`lin_pred`, `mu`, `history`, `self.weights`, and the last `wls_results`
(`none` before the first iteration has assigned it). -/
structure LoopState (n p : Nat) where
  lin_pred : Fin n → ℚ
  mu : Fin n → ℚ
  history : History p
  weights : Fin n → ℚ
  wres : Option (WlsResults p)

/-- The full penalty matrix `spl_s = self.penal.penalty_matrix(alpha=alpha)`
computed once at line 492 of `_fit_pirls` and passed unchanged as the
`penalty_matrix` argument of `penalized_wls` at line 542. -/
def pirls_spl_s {n p : Nat} (m : ModelConfig n p) (alpha : List ℚ) :
    Matrix (Fin p) (Fin p) ℚ :=
  m.penalty_matrix alpha

/-- `self.data_weights`: the `weights` argument of `_fit_pirls`, defaulting to
the all-ones vector (lines 497-500). -/
def pirls_data_weights {n : Nat} (weights : Option (Fin n → ℚ)) : Fin n → ℚ :=
  weights.getD fun _ => 1

/-- One body of the P-IRLS iteration loop (lines 530-548): working weights,
working response, penalized WLS solve, linear-predictor and mean update, and
the history append. -/
def pirlsBody {n p : Nat} (m : ModelConfig n p) (spl_s : Matrix (Fin p) (Fin p) ℚ)
    (data_weights : Fin n → ℚ) (st : LoopState n p) : LoopState n p :=
  let weights := fun i => data_weights i * m.collab.var_weights st.mu i
  let wlsendog := fun i =>
    st.lin_pred i + m.collab.link_deriv st.mu i * (m.endog i - st.mu i)
      - m.offset_exposure i
  let wls_results := penalized_wls m.collab.msqrt m.collab.wls_fit wlsendog m.exog spl_s weights
  let lin_pred := fun i => m.exog.mulVec wls_results.params i + m.offset_exposure i
  let mu := m.collab.fitted lin_pred
  let history := update_history wls_results (m.collab.deviance m.endog mu) st.history
  ⟨lin_pred, mu, history, weights, some wls_results⟩

/-- The initial `(lin_pred, mu)` pair of `_fit_pirls` (lines 511-516): from
the family's starting-value rule when no start_params are supplied, otherwise
from the start coefficients through the design matrix and the inverse link. -/
def pirls_start {n p : Nat} (m : ModelConfig n p)
    (start_params : Option (Fin p → ℚ)) : (Fin n → ℚ) × (Fin n → ℚ) :=
  match start_params with
  | none =>
      let mu := m.collab.starting_mu m.endog
      (m.collab.link_predict mu, mu)
  | some sp =>
      let lin_pred := fun i => m.exog.mulVec sp i + m.offset_exposure i
      (lin_pred, m.collab.fitted lin_pred)

/-- The initial fit history (line 519):
`dict(params=[None, start_params], deviance=[np.inf, dev])`. -/
def pirls_history0 {n p : Nat} (m : ModelConfig n p)
    (start_params : Option (Fin p → ℚ)) : History p :=
  { params := [none, start_params],
    deviance := [none, some (m.collab.deviance m.endog (pirls_start m start_params).2)] }

/-- The loop state at entry of iteration 0. -/
def pirlsInitState {n p : Nat} (m : ModelConfig n p)
    (start_params : Option (Fin p → ℚ)) (data_weights : Fin n → ℚ) : LoopState n p :=
  ⟨(pirls_start m start_params).1, (pirls_start m start_params).2,
    pirls_history0 m start_params, data_weights, none⟩

/-- The `for iteration in range(maxiter)` loop of `_fit_pirls` (lines
530-557), with the remaining iteration count as explicit fuel (the engine
calls it with `fuel = maxiter`, `iteration = 0`, so fuel runs out exactly when
`iteration` reaches `maxiter`).  Returns the final loop state, the final value
of the Python `iteration` variable (last executed index, i.e. `iteration - 1`
past the end on normal exhaustion), the `converged` flag, and the raised
error, if any.  The perfect-separation check (lines 550-552) fires when the
single-response mean matches the response within `np.allclose` tolerance; it
is tested before the convergence check. -/
def pirlsLoopF {n p : Nat} (m : ModelConfig n p) (spl_s : Matrix (Fin p) (Fin p) ℚ)
    (data_weights : Fin n → ℚ) (tol : ℚ) :
    Nat → Nat → LoopState n p → LoopState n p × Nat × Bool × Option PirlsError
  | 0, iteration, st => (st, iteration - 1, false, none)
  | fuel + 1, iteration, st =>
      let st1 := pirlsBody m spl_s data_weights st
      if np_allclose_zero (fun i => st1.mu i - m.endog i) then
        (st1, iteration, false, some PirlsError.perfectSeparation)
      else if check_convergence st1.history.deviance iteration tol 0 then
        (st1, iteration, true, none)
      else pirlsLoopF m spl_s data_weights tol fuel (iteration + 1) st1

/-- The sequence of loop states: `pirlsIterStates m spl_s dw st k` is the
state after `k` executions of the loop body starting from `st`, ignoring the
perfect-separation and convergence exits. -/
def pirlsIterStates {n p : Nat} (m : ModelConfig n p) (spl_s : Matrix (Fin p) (Fin p) ℚ)
    (data_weights : Fin n → ℚ) (st : LoopState n p) : Nat → LoopState n p
  | 0 => st
  | k + 1 => pirlsBody m spl_s data_weights (pirlsIterStates m spl_s data_weights st k)

/-- Whether the perfect-separation condition (line 550) holds at the end of
iteration `k` (0-based) of the run starting at `st`: the updated mean matches
the response within `np.allclose` tolerance at every observation. -/
def pirls_sep_at {n p : Nat} (m : ModelConfig n p) (spl_s : Matrix (Fin p) (Fin p) ℚ)
    (data_weights : Fin n → ℚ) (st : LoopState n p) (k : Nat) : Bool :=
  np_allclose_zero
    (fun i => (pirlsIterStates m spl_s data_weights st (k + 1)).mu i - m.endog i)

/-- Whether the convergence criterion (line 555) holds at the end of iteration
`k` (0-based) of the run starting at `st` and at iteration index 0. -/
def pirls_conv_at {n p : Nat} (m : ModelConfig n p) (spl_s : Matrix (Fin p) (Fin p) ℚ)
    (data_weights : Fin n → ℚ) (st : LoopState n p) (tol : ℚ) (k : Nat) : Bool :=
  check_convergence
    (pirlsIterStates m spl_s data_weights st (k + 1)).history.deviance k tol 0

/-- The elementwise product matrix computed by
`GLMGAMResults.get_hat_matrix_diag` (lines 298-328):
`wexog * hess_inv.dot(wexog.T).T` with `wexog = np.sqrt(weights)[:, None] * exog`,
`weights = model.hessian_factor(params, observed=True)` and
`hess_inv = normalized_cov_params * scale`. -/
def hat_matrix_terms {n p : Nat} (m : ModelConfig n p) (params : Fin p → ℚ)
    (ncov : Matrix (Fin p) (Fin p) ℚ) (scale : ℚ) : Matrix (Fin n) (Fin p) ℚ :=
  let weights := m.collab.hessian_factor params
  let wexog : Matrix (Fin n) (Fin p) ℚ :=
    Matrix.of fun i j => m.collab.np_sqrt (weights i) * m.exog i j
  let hess_inv := scale • ncov
  Matrix.of fun i j => wexog i j * (hess_inv * wexogᵀ)ᵀ i j

/-- `get_hat_matrix_diag(_axis=1)`: the per-observation hat-matrix diagonal
(row sums of `hat_matrix_terms`). -/
def get_hat_matrix_diag_axis1 {n p : Nat} (m : ModelConfig n p) (params : Fin p → ℚ)
    (ncov : Matrix (Fin p) (Fin p) ℚ) (scale : ℚ) : Fin n → ℚ :=
  fun i => ∑ j, hat_matrix_terms m params ncov scale i j

/-- `get_hat_matrix_diag(_axis=0)`: the per-coefficient effective degrees of
freedom (column sums of `hat_matrix_terms`); this is `GLMGAMResults.edf`. -/
def get_hat_matrix_diag_axis0 {n p : Nat} (m : ModelConfig n p) (params : Fin p → ℚ)
    (ncov : Matrix (Fin p) (Fin p) ℚ) (scale : ℚ) : Fin p → ℚ :=
  fun j => ∑ i, hat_matrix_terms m params ncov scale i j

/-- The immutable `GLMGAMResults` data relevant here: coefficients, normalized
covariance, the scale after the line-72 update, the `edf` vector cached by
`__init__` (computed with the scale the constructor received, before the
update), and the df bookkeeping. -/
structure GamResults (n p : Nat) where
  params : Fin p → ℚ
  normalized_cov_params : Matrix (Fin p) (Fin p) ℚ
  scale : ℚ
  edf : Fin p → ℚ
  df_model : ℚ
  df_resid : ℚ

/-- `GLMGAMResults.__init__` (lines 54-75): caches `edf` using the incoming
`scale`, derives `df_model = edf.sum() - 1` and `df_resid = nobs - edf.sum()`
(also written to the model), then recomputes the scale from the family's scale
rule at the fitted values with the just-updated `df_resid`; the result object
keeps the recomputed scale. -/
def mkGLMGAMResults {n p : Nat} (m : ModelConfig n p) (scaletype : Option ℚ)
    (params : Fin p → ℚ) (ncov : Matrix (Fin p) (Fin p) ℚ) (scale : ℚ) :
    GamResults n p :=
  let edfv := get_hat_matrix_diag_axis0 m params ncov scale
  let edfsum := ∑ j, edfv j
  let df_model := edfsum - 1
  let df_resid := (n : ℚ) - edfsum
  let mu := m.collab.fittedvalues params
  let scale1 := m.collab.estimate_scale scaletype mu df_resid
  { params := params, normalized_cov_params := ncov, scale := scale1,
    edf := edfv, df_model := df_model, df_resid := df_resid }

/-- `GLMGAMResults.hat_matrix_diag` (cache_readonly, lines 338-340): the
axis-1 hat diagonal computed on first access, with the scale the result object
carries at that time (the post-update scale). -/
def gam_hat_matrix_diag {n p : Nat} (m : ModelConfig n p) (r : GamResults n p) :
    Fin n → ℚ :=
  get_hat_matrix_diag_axis1 m r.params r.normalized_cov_params r.scale

/-- What `_fit_pirls` hands back on success (the wrapped `GLMGAMResults` plus
the attributes attached at lines 566-569): the results object, the fit
history, `history['iteration'] = iteration + 1`, and the converged flag. -/
structure GamFitResult (n p : Nat) where
  results : GamResults n p
  history : History p
  iteration : Nat
  converged : Bool

/-- The tail of `_fit_pirls` (lines 558-571): store `mu`, recompute the scale
from the family's rule (reading the model's current `df_resid` bookkeeping
field), and construct `GLMGAMResults`.  When either the coefficient vector or
the normalized covariance is `None` (as happens for the `maxiter == 0`
degenerate `lm.RegressionResults(self, start_params, None)`), the constructor
fails: `GLMGAMResults.__init__` computes `edf`, which evaluates
`None * scale`, a `TypeError`. -/
def pirls_finalize {n p : Nat} (m : ModelConfig n p) (s : Scratch n) (mu : Fin n → ℚ)
    (preParams : Option (Fin p → ℚ)) (preNcov : Option (Matrix (Fin p) (Fin p) ℚ))
    (history : History p) (iterVar : Nat) (conv : Bool) (scaletype : Option ℚ) :
    Scratch n × Except PirlsError (GamFitResult n p) :=
  let s1 := { s with mu := some mu,
                     scale := m.collab.estimate_scale scaletype mu s.df_resid }
  match preParams, preNcov with
  | some params, some ncov =>
      let r := mkGLMGAMResults m scaletype params ncov s1.scale
      let s2 := { s1 with df_model := r.df_model, df_resid := r.df_resid }
      (s2, Except.ok { results := r, history := history, iteration := iterVar + 1,
                       converged := conv })
  | _, _ => (s1, Except.error PirlsError.typeErrorNone)

/-- `GLMGam._fit_pirls(alpha, start_params, maxiter, tol, scale, ..., weights)`
(lines 480-571).  Returns the updated mutable model state together with either
the raised error or the fit result.  The `maxiter == 0` special case (lines
524-528) skips the loop and packages the unmodified start coefficients with a
`None` normalized covariance. -/
def fit_pirls {n p : Nat} (m : ModelConfig n p) (s0 : Scratch n) (alpha : List ℚ)
    (start_params : Option (Fin p → ℚ)) (maxiter : Nat) (tol : ℚ)
    (scale : Option ℚ) (weights : Option (Fin n → ℚ)) :
    Scratch n × Except PirlsError (GamFitResult n p) :=
  let spl_s := pirls_spl_s m alpha
  let data_weights := pirls_data_weights weights
  let s1 : Scratch n :=
    { s0 with data_weights := some data_weights, scaletype := scale, scale := 1 }
  if maxiter = 0 then
    let lin_pred := (pirls_start m start_params).1
    let mu := m.collab.fitted lin_pred
    let s2 := { s1 with scale := m.collab.estimate_scale scale mu s1.df_resid }
    pirls_finalize m s2 mu start_params none (pirls_history0 m start_params) 0 false scale
  else
    match pirlsLoopF m spl_s data_weights tol maxiter 0
        (pirlsInitState m start_params data_weights) with
    | (st, _, _, some e) =>
        ({ s1 with weights := some st.weights }, Except.error e)
    | (st, iterVar, conv, none) =>
        pirls_finalize m { s1 with weights := some st.weights } st.mu
          (st.wres.map WlsResults.params) (st.wres.map WlsResults.normalized_cov_params)
          st.history iterVar conv scale

/-- Projection of a `_fit_pirls` outcome onto its fit history: per-iteration
coefficient list, per-iteration deviance list, iteration count, converged
flag, and the final coefficients.  (The scale and covariance-derived fields
are deliberately not included: they read the model's mutable `df_resid`.) -/
def fit_history_view {n p : Nat} :
    Except PirlsError (GamFitResult n p) →
      Except PirlsError
        (List (Option (Fin p → ℚ)) × List (Option ℚ) × Nat × Bool × (Fin p → ℚ)) :=
  Except.map fun r =>
    (r.history.params, r.history.deviance, r.iteration, r.converged, r.results.params)

/-- The `alpha` argument of `GLMGam.__init__`: either a scalar or a sequence
(`_check_alpha` distinguishes the two with an `isinstance(..., Iterable)`
test). -/
inductive AlphaInput where
  | scalar (a : ℚ)
  | ofList (l : List ℚ)

/-- `GLMGam._check_alpha` (lines 420-441): a non-iterable alpha is broadcast
to a list with one copy per smooth term; an iterable one is converted to a
list unchanged.  No length validation is performed here. -/
def check_alpha (k_smoothers : Nat) : AlphaInput → List ℚ
  | AlphaInput.scalar a => List.replicate k_smoothers a
  | AlphaInput.ofList l => l

/-- Errors of model construction. -/
inductive GamError where
  | invalidArgument
  deriving DecidableEq

/-- Modelled from the spec: the `MultivariateGamPenalty` constructor
(gam_penalties.py, not under src/) called by `GLMGam.__init__` at line 409
validates the alpha length against the known number of smooth terms at
construction time, failing fast with an invalid-argument error on mismatch
(spec sections 7 and 9). -/
def multivariate_gam_penalty_check (k_smoothers : Nat) (alpha : List ℚ) :
    Except GamError Unit :=
  if alpha.length = k_smoothers then Except.ok () else Except.error GamError.invalidArgument

/-- The alpha handling of `GLMGam.__init__` (lines 395-418): normalize alpha
with `_check_alpha`, then construct the penalty (which validates the length).
Construction happens before any fit, hence before any P-IRLS iteration. -/
def glmgam_construct (k_smoothers : Nat) (alpha : AlphaInput) :
    Except GamError (List ℚ) :=
  let a := check_alpha k_smoothers alpha
  (multivariate_gam_penalty_check k_smoothers a).map fun _ => a

/-- The trace dict built by `GLMGam.select_penweight` (lines 637-640):
`history['alpha']`, `history['params']` (seeded with the model start
parameters), and `history['criterion']`. -/
structure SelHistory (k p : Nat) where
  alpha : List (Fin k → ℚ)
  params : List (Option (Fin p → ℚ))
  criterion : List ℚ

/-- One objective evaluation `fun(p)` of `select_penweight` (lines 642-648):
exponentiate the candidate log-alpha (`np_exp` is the external `np.exp`), run
P-IRLS warm-started from `history['params'][-1]` (`pirls_eval` abstracts
`self._fit_pirls` followed by the `getattr(res_, criterion)` read, returning
the converged coefficients and the criterion value), append the alpha and the
coefficients to the trace, and return the criterion value.  Nothing is ever
appended to `history['criterion']`. -/
def select_fun_step {k p : Nat} (np_exp : (Fin k → ℚ) → Fin k → ℚ)
    (pirls_eval : Option (Fin p → ℚ) → (Fin k → ℚ) → (Fin p → ℚ) × ℚ)
    (h : SelHistory k p) (pt : Fin k → ℚ) : SelHistory k p × ℚ :=
  let a := np_exp pt
  let res := pirls_eval (h.params.getLastD none) a
  ({ h with alpha := h.alpha ++ [a], params := h.params ++ [some res.1] }, res.2)

/-- The trace accumulated by a `select_penweight` run whose optimizer performs
the objective evaluations `evals` (the outer scipy optimizer is an external
collaborator; only the sequence of points it evaluates matters for the trace):
fold `fun` over the evaluations, then `del history['params'][0]` (line 668). -/
def select_penweight_history {k p : Nat} (np_exp : (Fin k → ℚ) → Fin k → ℚ)
    (pirls_eval : Option (Fin p → ℚ) → (Fin k → ℚ) → (Fin p → ℚ) × ℚ)
    (start_model_params : Option (Fin p → ℚ)) (evals : List (Fin k → ℚ)) :
    SelHistory k p :=
  let h0 : SelHistory k p := ⟨[], [start_model_params], []⟩
  let h1 := evals.foldl (fun h pt => (select_fun_step np_exp pirls_eval h pt).1) h0
  { h1 with params := h1.params.drop 1 }

/-! Concrete instances used by witnesses and counterexamples. -/

/-- A concrete `matrix_sqrt` collaborator for 1×1 matrices, always returning
the matrix with single entry 2. -/
def msqrtW : Matrix (Fin 1) (Fin 1) ℚ → Matrix (Fin 1) (Fin 1) ℚ :=
  fun _ => Matrix.of fun _ _ => 2

/-- The 1×1 penalty matrix with entry 4, whose square root `msqrtW` returns. -/
def SW : Matrix (Fin 1) (Fin 1) ℚ := Matrix.of fun _ _ => 4

/-- Concrete response vector for the witnesses. -/
def yW : Fin 1 → ℚ := fun _ => 3

/-- Concrete 1×1 design matrix for the witnesses. -/
def XW : Matrix (Fin 1) (Fin 1) ℚ := Matrix.of fun _ _ => 1

/-- Concrete weight vector for the witnesses. -/
def wW : Fin 1 → ℚ := fun _ => 2

/-- Concrete coefficient vector for the witnesses. -/
def betaW : Fin 1 → ℚ := fun _ => 5

/-- A concrete collaborator set on a one-observation, one-column model:
identity link, unit variance weights, squared-error deviance, a scale rule
returning the model's current `df_resid`, and a WLS solver that always
returns the zero coefficient with unit normalized covariance. -/
def collabC : Collab 1 1 where
  starting_mu := fun y => y
  link_predict := fun mu => mu
  fitted := fun lp => lp
  link_deriv := fun _ _ => 1
  var_weights := fun _ _ => 1
  deviance := fun y mu => (y 0 - mu 0) ^ 2
  estimate_scale := fun _ _ d => d
  hessian_factor := fun _ _ => 1
  fittedvalues := fun _ _ => 0
  np_sqrt := fun q => q
  msqrt := fun S => S
  wls_fit := fun _ _ _ => ⟨fun _ => 0, Matrix.of fun _ _ => 1⟩

/-- A concrete one-observation model: response 5, design matrix [[1]], penalty
generator linear in alpha (`alpha ↦ [[alpha]]`), no offset. -/
def modelC : ModelConfig 1 1 where
  endog := fun _ => 5
  exog := Matrix.of fun _ _ => 1
  penalty_matrix := fun a => Matrix.of fun _ _ => a.headD 0
  offset_exposure := fun _ => 0
  collab := collabC

/-- Initial mutable model state for `modelC`: `df_resid = nobs - rank(exog)
= 1 - 1 = 0` as set by GLM initialization. -/
def scratchC : Scratch 1 :=
  { scale := 1, scaletype := none, df_model := 0, df_resid := 0,
    data_weights := none, weights := none, mu := none }

/-- `collabC` with a constant scale rule (scale 1 regardless of `df_resid`),
for which the line-72 scale update is a no-op. -/
def collabD : Collab 1 1 :=
  { collabC with estimate_scale := fun _ _ _ => 1 }

/-- `modelC` with the constant-scale collaborators. -/
def modelD : ModelConfig 1 1 :=
  { modelC with collab := collabD }

/-! Theorems. -/

/-- Claim C1: for the triple `(y', X', w')` returned by
`make_augmented_matrix(y, X, S, w)` (with `R = msqrt S` a matrix square root
of the penalty matrix, `RᵀR = S`), the weighted residual sum of squares of any
coefficient vector beta on the augmented problem equals the weighted residual
sum of squares on the original problem plus the penalty `betaᵀ S beta`. -/
theorem make_augmented_matrix_wrss {n p : Nat}
    (msqrt : Matrix (Fin p) (Fin p) ℚ → Matrix (Fin p) (Fin p) ℚ)
    (y : Fin n → ℚ) (X : Matrix (Fin n) (Fin p) ℚ) (S : Matrix (Fin p) (Fin p) ℚ)
    (w : Fin n → ℚ) (beta : Fin p → ℚ)
    (hR : (msqrt S)ᵀ * msqrt S = S) :
    wrss (make_augmented_matrix msqrt y X S w).2.2 (make_augmented_matrix msqrt y X S w).1
      (make_augmented_matrix msqrt y X S w).2.1 beta
      = wrss w y X beta + beta ⬝ᵥ S.mulVec beta := by
  have hpen : beta ⬝ᵥ S.mulVec beta
      = ∑ j, ((msqrt S).mulVec beta j) * ((msqrt S).mulVec beta j) := by
    conv_lhs => rw [← hR]
    rw [← Matrix.mulVec_mulVec, Matrix.dotProduct_mulVec, Matrix.vecMul_transpose]
    rfl
  simp only [wrss, make_augmented_matrix, Matrix.fromRows_mulVec]
  rw [Fintype.sum_sum_type]
  simp only [Sum.elim_inl, Sum.elim_inr, one_mul, zero_sub, neg_sq]
  rw [hpen]
  congr 1
  exact Finset.sum_congr rfl fun j _ => by ring

/-- Witness for C1 at a concrete input: n = p = 1, S = [[4]], R = [[2]],
y = [3], X = [[1]], w = [2], beta = [5]. -/
theorem make_augmented_matrix_wrss_witness :
    ((msqrtW SW)ᵀ * msqrtW SW = SW) ∧
    wrss (make_augmented_matrix msqrtW yW XW SW wW).2.2
      (make_augmented_matrix msqrtW yW XW SW wW).1
      (make_augmented_matrix msqrtW yW XW SW wW).2.1 betaW
      = wrss wW yW XW betaW + betaW ⬝ᵥ SW.mulVec betaW := by
  have hR : (msqrtW SW)ᵀ * msqrtW SW = SW := by
    ext i j
    fin_cases i
    fin_cases j
    simp [msqrtW, SW, Matrix.mul_apply]
    norm_num
  exact ⟨hR, make_augmented_matrix_wrss msqrtW yW XW SW wW betaW hR⟩

/-- Claim C7: `make_augmented_matrix(y, X, S, w)` returns exactly the triple
the spec describes: response `y` followed by p zeros, design `X` stacked
vertically on the matrix square root `R = msqrt S` of the penalty matrix
(hence n + p rows, encoded here by the `Fin n ⊕ Fin p` row index), and
weights `w` followed by p ones. -/
theorem make_augmented_matrix_eq_spec {n p : Nat}
    (msqrt : Matrix (Fin p) (Fin p) ℚ → Matrix (Fin p) (Fin p) ℚ)
    (y : Fin n → ℚ) (X : Matrix (Fin n) (Fin p) ℚ) (S : Matrix (Fin p) (Fin p) ℚ)
    (w : Fin n → ℚ)
    (_hR : (msqrt S)ᵀ * msqrt S = S) :
    make_augmented_matrix msqrt y X S w = make_augmented_matrix_spec (msqrt S) y X w :=
  rfl

/-- Witness for C7 at the concrete input of the C1 witness. -/
theorem make_augmented_matrix_eq_spec_witness :
    ((msqrtW SW)ᵀ * msqrtW SW = SW) ∧
    make_augmented_matrix msqrtW yW XW SW wW
      = make_augmented_matrix_spec (msqrtW SW) yW XW wW := by
  have hR : (msqrtW SW)ᵀ * msqrtW SW = SW := by
    ext i j
    fin_cases i
    fin_cases j
    simp [msqrtW, SW, Matrix.mul_apply]
    norm_num
  exact ⟨hR, make_augmented_matrix_eq_spec msqrtW yW XW SW wW hR⟩

/-- Claim C2, counterexample: the penalty-matrix argument that the P-IRLS loop
hands to `penalized_wls` is `spl_s = penalty_matrix(alpha)` itself, not twice
it: on the concrete model `modelC` with alpha = [1] the argument is [[1]]
while twice the penalty matrix is [[2]]. -/
theorem pirls_penalty_arg_not_pre_doubled :
    pirls_spl_s modelC [1] ≠ (2 : ℚ) • modelC.penalty_matrix [1] := by
  intro h
  have h00 : pirls_spl_s modelC [1] 0 0 = ((2 : ℚ) • modelC.penalty_matrix [1]) 0 0 :=
    congrFun (congrFun h 0) 0
  have hL : pirls_spl_s modelC [1] 0 0 = 1 := rfl
  have hRv : ((2 : ℚ) • modelC.penalty_matrix [1]) 0 0 = 2 := by
    have hE : modelC.penalty_matrix [1] 0 0 = 1 := rfl
    rw [Matrix.smul_apply, hE]
    norm_num
  rw [hL, hRv] at h00
  norm_num at h00

/-- Claim C2, amended: the P-IRLS loop passes the undoubled
`penalty_matrix(alpha)` to `penalized_wls`, and the factor of two is applied
exactly once, inside `penalized_wls`, which forwards `2 * s` to
`make_augmented_matrix`; hence the matrix reaching the augmented-matrix
builder is twice the full penalty matrix. -/
theorem penalized_wls_doubles_once {n p : Nat} (m : ModelConfig n p) (alpha : List ℚ)
    (msqrt : Matrix (Fin p) (Fin p) ℚ → Matrix (Fin p) (Fin p) ℚ)
    (wls_fit : ((Fin n ⊕ Fin p) → ℚ) → Matrix (Fin n ⊕ Fin p) (Fin p) ℚ →
      ((Fin n ⊕ Fin p) → ℚ) → WlsResults p)
    (y : Fin n → ℚ) (X : Matrix (Fin n) (Fin p) ℚ) (s : Matrix (Fin p) (Fin p) ℚ)
    (w : Fin n → ℚ) :
    pirls_spl_s m alpha = m.penalty_matrix alpha ∧
    penalized_wls msqrt wls_fit y X s w =
      wls_fit (make_augmented_matrix msqrt y X ((2 : ℚ) • s) w).1
        (make_augmented_matrix msqrt y X ((2 : ℚ) • s) w).2.1
        (make_augmented_matrix msqrt y X ((2 : ℚ) • s) w).2.2 :=
  ⟨rfl, rfl⟩

/-- Claim C8: a list-form alpha whose length differs from the number of smooth
terms makes model construction fail with an invalid-argument error, before any
P-IRLS iteration can run (construction precedes `fit`). -/
theorem glmgam_construct_invalid_alpha (k_smoothers : Nat) (l : List ℚ)
    (h : l.length ≠ k_smoothers) :
    glmgam_construct k_smoothers (AlphaInput.ofList l)
      = Except.error GamError.invalidArgument := by
  simp [glmgam_construct, check_alpha, multivariate_gam_penalty_check, h, Except.map]

/-- Witness for C8: a one-element alpha list on a two-smooth-term model. -/
theorem glmgam_construct_invalid_alpha_witness :
    (([1] : List ℚ).length ≠ 2) ∧
    glmgam_construct 2 (AlphaInput.ofList [1]) = Except.error GamError.invalidArgument :=
  ⟨by decide, glmgam_construct_invalid_alpha 2 [1] (by decide)⟩

/-- Claim C3 (code evaluation): over any run of the `select_penweight`
objective bookkeeping, `history['alpha']` and `history['params']` end with
exactly one entry per objective evaluation, but `history['criterion']` is
never appended to and stays empty — contradicting the documented trace of
(alpha, criterion value, converged coefficients) per evaluation whenever at
least one evaluation happens. -/
theorem select_penweight_history_lengths {k p : Nat}
    (np_exp : (Fin k → ℚ) → Fin k → ℚ)
    (pirls_eval : Option (Fin p → ℚ) → (Fin k → ℚ) → (Fin p → ℚ) × ℚ)
    (start_model_params : Option (Fin p → ℚ)) (evals : List (Fin k → ℚ)) :
    (select_penweight_history np_exp pirls_eval start_model_params evals).alpha.length
        = evals.length ∧
    (select_penweight_history np_exp pirls_eval start_model_params evals).params.length
        = evals.length ∧
    (select_penweight_history np_exp pirls_eval start_model_params evals).criterion.length
        = 0 := by
  have hstep_a : ∀ (h : SelHistory k p) (pt : Fin k → ℚ),
      ((select_fun_step np_exp pirls_eval h pt).1).alpha.length = h.alpha.length + 1 := by
    intro h pt
    simp [select_fun_step]
  have hstep_p : ∀ (h : SelHistory k p) (pt : Fin k → ℚ),
      ((select_fun_step np_exp pirls_eval h pt).1).params.length = h.params.length + 1 := by
    intro h pt
    simp [select_fun_step]
  have hstep_c : ∀ (h : SelHistory k p) (pt : Fin k → ℚ),
      ((select_fun_step np_exp pirls_eval h pt).1).criterion.length = h.criterion.length := by
    intro h pt
    simp [select_fun_step]
  have key : ∀ (evals : List (Fin k → ℚ)) (h : SelHistory k p),
      (evals.foldl (fun h pt => (select_fun_step np_exp pirls_eval h pt).1) h).alpha.length
          = h.alpha.length + evals.length ∧
      (evals.foldl (fun h pt => (select_fun_step np_exp pirls_eval h pt).1) h).params.length
          = h.params.length + evals.length ∧
      (evals.foldl (fun h pt => (select_fun_step np_exp pirls_eval h pt).1) h).criterion.length
          = h.criterion.length := by
    intro evals
    induction evals with
    | nil => intro h; simp
    | cons pt rest ih =>
        intro h
        have hrec := ih ((select_fun_step np_exp pirls_eval h pt).1)
        simp only [List.foldl_cons]
        refine ⟨?_, ?_, ?_⟩
        · rw [hrec.1, hstep_a h pt, List.length_cons]; omega
        · rw [hrec.2.1, hstep_p h pt, List.length_cons]; omega
        · rw [hrec.2.2, hstep_c h pt]
  have h1 := key evals ⟨[], [start_model_params], []⟩
  simp only [select_penweight_history]
  refine ⟨?_, ?_, ?_⟩
  · simpa using h1.1
  · rw [List.length_drop, h1.2.1]; simp
  · simpa using h1.2.2

/-- Advancing the state sequence from the successor state is the same as
advancing one step further from the original state. -/
theorem pirlsIterStates_shift {n p : Nat} (m : ModelConfig n p)
    (spl_s : Matrix (Fin p) (Fin p) ℚ) (dw : Fin n → ℚ) (st : LoopState n p) :
    ∀ k, pirlsIterStates m spl_s dw (pirlsBody m spl_s dw st) k
      = pirlsIterStates m spl_s dw st (k + 1)
  | 0 => rfl
  | k + 1 => congrArg (pirlsBody m spl_s dw) (pirlsIterStates_shift m spl_s dw st k)

/-- The perfect-separation test of the run started after one body application
is the test of the original run, shifted by one iteration. -/
theorem pirls_sep_at_shift {n p : Nat} (m : ModelConfig n p)
    (spl_s : Matrix (Fin p) (Fin p) ℚ) (dw : Fin n → ℚ) (st : LoopState n p) (k : Nat) :
    pirls_sep_at m spl_s dw (pirlsBody m spl_s dw st) k = pirls_sep_at m spl_s dw st (k + 1) := by
  simp only [pirls_sep_at, pirlsIterStates_shift]

/-- If neither the perfect-separation condition nor the convergence criterion
holds at the end of any of the next `fuel` iterations, the loop runs all of
them and exits with the exhausted iteration counter, not converged and no
error. -/
theorem pirlsLoopF_exhaust {n p : Nat} (m : ModelConfig n p)
    (spl_s : Matrix (Fin p) (Fin p) ℚ) (dw : Fin n → ℚ) (tol : ℚ) :
    ∀ (fuel i : Nat) (st : LoopState n p),
      (∀ k, k < fuel →
        pirls_sep_at m spl_s dw st k = false ∧
        check_convergence (pirlsIterStates m spl_s dw st (k + 1)).history.deviance
          (i + k) tol 0 = false) →
      pirlsLoopF m spl_s dw tol fuel i st
        = (pirlsIterStates m spl_s dw st fuel, i + fuel - 1, false, none)
  | 0, i, st, _ => by simp [pirlsLoopF, pirlsIterStates]
  | fuel + 1, i, st, H => by
      have h0 := H 0 (Nat.succ_pos fuel)
      have hsep : np_allclose_zero
          (fun j => (pirlsBody m spl_s dw st).mu j - m.endog j) = false := by
        simpa [pirls_sep_at, pirlsIterStates] using h0.1
      have hconv : check_convergence (pirlsBody m spl_s dw st).history.deviance i tol 0
          = false := by
        simpa [pirlsIterStates] using h0.2
      have hrec := pirlsLoopF_exhaust m spl_s dw tol fuel (i + 1) (pirlsBody m spl_s dw st)
        (fun k hk => by
          have hk1 := H (k + 1) (Nat.succ_lt_succ hk)
          refine ⟨?_, ?_⟩
          · rw [pirls_sep_at_shift]
            exact hk1.1
          · rw [pirlsIterStates_shift]
            have harith : i + 1 + k = i + (k + 1) := by omega
            rw [harith]
            exact hk1.2)
      simp only [pirlsLoopF, hsep, hconv, if_false, Bool.false_eq_true]
      rw [hrec, pirlsIterStates_shift]
      have harith : i + 1 + fuel - 1 = i + (fuel + 1) - 1 := by omega
      rw [harith]

/-- If the perfect-separation condition first holds at the end of iteration
`k` (with no earlier separation or convergence), the loop raises at iteration
`k`. -/
theorem pirlsLoopF_sep {n p : Nat} (m : ModelConfig n p)
    (spl_s : Matrix (Fin p) (Fin p) ℚ) (dw : Fin n → ℚ) (tol : ℚ) :
    ∀ (fuel k i : Nat) (st : LoopState n p), k < fuel →
      pirls_sep_at m spl_s dw st k = true →
      (∀ j, j < k → pirls_sep_at m spl_s dw st j = false ∧
        check_convergence (pirlsIterStates m spl_s dw st (j + 1)).history.deviance
          (i + j) tol 0 = false) →
      pirlsLoopF m spl_s dw tol fuel i st
        = (pirlsIterStates m spl_s dw st (k + 1), i + k, false,
            some PirlsError.perfectSeparation)
  | 0, k, _, _, hk, _, _ => absurd hk (Nat.not_lt_zero k)
  | fuel + 1, 0, i, st, _, hsep, _ => by
      have hsep1 : np_allclose_zero
          (fun j => (pirlsBody m spl_s dw st).mu j - m.endog j) = true := by
        simpa [pirls_sep_at, pirlsIterStates] using hsep
      simp only [pirlsLoopF, hsep1, if_true]
      simp [pirlsIterStates]
  | fuel + 1, k + 1, i, st, hk, hsep, H => by
      have h0 := H 0 (Nat.succ_pos k)
      have hsep0 : np_allclose_zero
          (fun j => (pirlsBody m spl_s dw st).mu j - m.endog j) = false := by
        simpa [pirls_sep_at, pirlsIterStates] using h0.1
      have hconv0 : check_convergence (pirlsBody m spl_s dw st).history.deviance i tol 0
          = false := by
        simpa [pirlsIterStates] using h0.2
      have hrec := pirlsLoopF_sep m spl_s dw tol fuel k (i + 1) (pirlsBody m spl_s dw st)
        (Nat.lt_of_succ_lt_succ hk)
        (by rw [pirls_sep_at_shift]; exact hsep)
        (fun j hj => by
          have hj1 := H (j + 1) (Nat.succ_lt_succ hj)
          refine ⟨?_, ?_⟩
          · rw [pirls_sep_at_shift]
            exact hj1.1
          · rw [pirlsIterStates_shift]
            have harith : i + 1 + j = i + (j + 1) := by omega
            rw [harith]
            exact hj1.2)
      simp only [pirlsLoopF, hsep0, hconv0, if_false, Bool.false_eq_true]
      rw [hrec, pirlsIterStates_shift]
      have harith : i + 1 + k = i + (k + 1) := by omega
      rw [harith]

/-- If the convergence criterion first holds at the end of iteration `k`
(no separation there, no earlier separation or convergence), the loop breaks
at iteration `k` with the converged flag set. -/
theorem pirlsLoopF_conv {n p : Nat} (m : ModelConfig n p)
    (spl_s : Matrix (Fin p) (Fin p) ℚ) (dw : Fin n → ℚ) (tol : ℚ) :
    ∀ (fuel k i : Nat) (st : LoopState n p), k < fuel →
      pirls_sep_at m spl_s dw st k = false →
      check_convergence (pirlsIterStates m spl_s dw st (k + 1)).history.deviance
        (i + k) tol 0 = true →
      (∀ j, j < k → pirls_sep_at m spl_s dw st j = false ∧
        check_convergence (pirlsIterStates m spl_s dw st (j + 1)).history.deviance
          (i + j) tol 0 = false) →
      pirlsLoopF m spl_s dw tol fuel i st
        = (pirlsIterStates m spl_s dw st (k + 1), i + k, true, none)
  | 0, k, _, _, hk, _, _, _ => absurd hk (Nat.not_lt_zero k)
  | fuel + 1, 0, i, st, _, hsep, hconv, _ => by
      have hsep1 : np_allclose_zero
          (fun j => (pirlsBody m spl_s dw st).mu j - m.endog j) = false := by
        simpa [pirls_sep_at, pirlsIterStates] using hsep
      have hconv1 : check_convergence (pirlsBody m spl_s dw st).history.deviance i tol 0
          = true := by
        simpa [pirlsIterStates] using hconv
      simp only [pirlsLoopF, hsep1, hconv1, if_true, if_false, Bool.false_eq_true]
      simp [pirlsIterStates]
  | fuel + 1, k + 1, i, st, hk, hsep, hconv, H => by
      have h0 := H 0 (Nat.succ_pos k)
      have hsep0 : np_allclose_zero
          (fun j => (pirlsBody m spl_s dw st).mu j - m.endog j) = false := by
        simpa [pirls_sep_at, pirlsIterStates] using h0.1
      have hconv0 : check_convergence (pirlsBody m spl_s dw st).history.deviance i tol 0
          = false := by
        simpa [pirlsIterStates] using h0.2
      have hrec := pirlsLoopF_conv m spl_s dw tol fuel k (i + 1) (pirlsBody m spl_s dw st)
        (Nat.lt_of_succ_lt_succ hk)
        (by rw [pirls_sep_at_shift]; exact hsep)
        (by rw [pirlsIterStates_shift]
            have harith : i + 1 + k = i + (k + 1) := by omega
            rw [harith]
            exact hconv)
        (fun j hj => by
          have hj1 := H (j + 1) (Nat.succ_lt_succ hj)
          refine ⟨?_, ?_⟩
          · rw [pirls_sep_at_shift]
            exact hj1.1
          · rw [pirlsIterStates_shift]
            have harith : i + 1 + j = i + (j + 1) := by omega
            rw [harith]
            exact hj1.2)
      simp only [pirlsLoopF, hsep0, hconv0, if_false, Bool.false_eq_true]
      rw [hrec, pirlsIterStates_shift]
      have harith : i + 1 + k = i + (k + 1) := by omega
      rw [harith]

/-- The finalization step never produces a perfect-separation error (its only
failure mode is the `None`-covariance `TypeError`). -/
theorem pirls_finalize_ne_sep {n p : Nat} (m : ModelConfig n p) (s : Scratch n)
    (mu : Fin n → ℚ) (preParams : Option (Fin p → ℚ))
    (preNcov : Option (Matrix (Fin p) (Fin p) ℚ)) (history : History p)
    (iterVar : Nat) (conv : Bool) (scaletype : Option ℚ) :
    (pirls_finalize m s mu preParams preNcov history iterVar conv scaletype).2
      ≠ Except.error PirlsError.perfectSeparation := by
  cases preParams <;> cases preNcov <;> simp [pirls_finalize]

/-- Every state reached after at least one loop body has a `wls_results`. -/
theorem pirlsIterStates_wres_isSome {n p : Nat} (m : ModelConfig n p)
    (spl_s : Matrix (Fin p) (Fin p) ℚ) (dw : Fin n → ℚ) (st : LoopState n p) (k : Nat) :
    ((pirlsIterStates m spl_s dw st (k + 1)).wres).isSome = true := by
  simp [pirlsIterStates, pirlsBody]

/-- Claim C4: on a single-response model (the embedded response is
one-dimensional, so `endog.squeeze().ndim == 1` holds), `_fit_pirls` raises
`PerfectSeparationError` — and hence returns no results object — exactly when
some iteration is reached whose updated mean matches the response within
`np.allclose` tolerance at every observation: there is an iteration `k` below
`maxiter` at whose end the separation condition holds while no earlier
iteration satisfied either the separation condition or the convergence
criterion. -/
theorem fit_pirls_perfect_separation_iff {n p : Nat} (m : ModelConfig n p)
    (s0 : Scratch n) (alpha : List ℚ) (start_params : Option (Fin p → ℚ))
    (maxiter : Nat) (tol : ℚ) (scale : Option ℚ) (weights : Option (Fin n → ℚ)) :
    (fit_pirls m s0 alpha start_params maxiter tol scale weights).2
        = Except.error PirlsError.perfectSeparation ↔
      ∃ k, k < maxiter ∧
        pirls_sep_at m (pirls_spl_s m alpha) (pirls_data_weights weights)
          (pirlsInitState m start_params (pirls_data_weights weights)) k = true ∧
        ∀ j, j < k →
          pirls_sep_at m (pirls_spl_s m alpha) (pirls_data_weights weights)
            (pirlsInitState m start_params (pirls_data_weights weights)) j = false ∧
          pirls_conv_at m (pirls_spl_s m alpha) (pirls_data_weights weights)
            (pirlsInitState m start_params (pirls_data_weights weights)) tol j = false := by
  classical
  by_cases hmax : maxiter = 0
  · subst hmax
    refine iff_of_false ?_ ?_
    · simp only [fit_pirls, if_pos rfl]
      exact pirls_finalize_ne_sep m _ _ _ _ _ _ _ _
    · rintro ⟨k, hk, -, -⟩
      exact absurd hk (Nat.not_lt_zero k)
  · by_cases hex : ∃ k, k < maxiter ∧
        (pirls_sep_at m (pirls_spl_s m alpha) (pirls_data_weights weights)
          (pirlsInitState m start_params (pirls_data_weights weights)) k = true ∨
         pirls_conv_at m (pirls_spl_s m alpha) (pirls_data_weights weights)
          (pirlsInitState m start_params (pirls_data_weights weights)) tol k = true)
    · set k0 := Nat.find hex with hk0def
      have hk0 := Nat.find_spec hex
      have hmin : ∀ j, j < k0 →
          pirls_sep_at m (pirls_spl_s m alpha) (pirls_data_weights weights)
            (pirlsInitState m start_params (pirls_data_weights weights)) j = false ∧
          pirls_conv_at m (pirls_spl_s m alpha) (pirls_data_weights weights)
            (pirlsInitState m start_params (pirls_data_weights weights)) tol j = false := by
        intro j hj
        have hnot := Nat.find_min hex hj
        have hjmax : j < maxiter := lt_trans hj hk0.1
        constructor
        · cases hs : pirls_sep_at m (pirls_spl_s m alpha) (pirls_data_weights weights)
              (pirlsInitState m start_params (pirls_data_weights weights)) j
          · rfl
          · exact absurd ⟨hjmax, Or.inl hs⟩ hnot
        · cases hc : pirls_conv_at m (pirls_spl_s m alpha) (pirls_data_weights weights)
              (pirlsInitState m start_params (pirls_data_weights weights)) tol j
          · rfl
          · exact absurd ⟨hjmax, Or.inr hc⟩ hnot
      cases hs0 : pirls_sep_at m (pirls_spl_s m alpha) (pirls_data_weights weights)
          (pirlsInitState m start_params (pirls_data_weights weights)) k0 with
      | true =>
          have hloop := pirlsLoopF_sep m (pirls_spl_s m alpha) (pirls_data_weights weights)
            tol maxiter k0 0
            (pirlsInitState m start_params (pirls_data_weights weights)) hk0.1 hs0
            (fun j hj => by
              have hj1 := hmin j hj
              refine ⟨hj1.1, ?_⟩
              have := hj1.2
              simpa [pirls_conv_at, Nat.zero_add] using this)
          refine iff_of_true ?_ ⟨k0, hk0.1, hs0, hmin⟩
          simp only [fit_pirls, if_neg hmax, hloop]
      | false =>
          have hc0 : pirls_conv_at m (pirls_spl_s m alpha) (pirls_data_weights weights)
              (pirlsInitState m start_params (pirls_data_weights weights)) tol k0 = true := by
            rcases hk0.2 with h | h
            · rw [hs0] at h
              exact absurd h (by simp)
            · exact h
          have hloop := pirlsLoopF_conv m (pirls_spl_s m alpha) (pirls_data_weights weights)
            tol maxiter k0 0
            (pirlsInitState m start_params (pirls_data_weights weights)) hk0.1 hs0
            (by simpa [pirls_conv_at, Nat.zero_add] using hc0)
            (fun j hj => by
              have hj1 := hmin j hj
              refine ⟨hj1.1, ?_⟩
              simpa [pirls_conv_at, Nat.zero_add] using hj1.2)
          refine iff_of_false ?_ ?_
          · simp only [fit_pirls, if_neg hmax, hloop]
            exact pirls_finalize_ne_sep m _ _ _ _ _ _ _ _
          · rintro ⟨k, hk, hksep, hkpre⟩
            have hle : k0 ≤ k := Nat.find_min' hex ⟨hk, Or.inl hksep⟩
            rcases Nat.lt_or_ge k0 k with hlt | hge
            · have := (hkpre k0 hlt).2
              rw [hc0] at this
              exact absurd this (by simp)
            · have hkk : k = k0 := Nat.le_antisymm (Nat.le_of_lt_succ (by omega)) hle
              rw [hkk] at hksep
              rw [hs0] at hksep
              exact absurd hksep (by simp)
    · have hall : ∀ k, k < maxiter →
          pirls_sep_at m (pirls_spl_s m alpha) (pirls_data_weights weights)
            (pirlsInitState m start_params (pirls_data_weights weights)) k = false ∧
          check_convergence
            ((pirlsIterStates m (pirls_spl_s m alpha) (pirls_data_weights weights)
              (pirlsInitState m start_params (pirls_data_weights weights)) (k + 1)).history.deviance)
            (0 + k) tol 0 = false := by
        intro k hkm
        have hno : ¬(k < maxiter ∧ _) := fun hcontra => hex ⟨k, hcontra⟩
        constructor
        · cases hs : pirls_sep_at m (pirls_spl_s m alpha) (pirls_data_weights weights)
              (pirlsInitState m start_params (pirls_data_weights weights)) k
          · rfl
          · exact absurd ⟨hkm, Or.inl hs⟩ hno
        · cases hc : pirls_conv_at m (pirls_spl_s m alpha) (pirls_data_weights weights)
              (pirlsInitState m start_params (pirls_data_weights weights)) tol k
          · simpa [pirls_conv_at, Nat.zero_add] using hc
          · exact absurd ⟨hkm, Or.inr hc⟩ hno
      have hloop := pirlsLoopF_exhaust m (pirls_spl_s m alpha) (pirls_data_weights weights)
        tol maxiter 0 (pirlsInitState m start_params (pirls_data_weights weights)) hall
      refine iff_of_false ?_ ?_
      · simp only [fit_pirls, if_neg hmax, hloop]
        exact pirls_finalize_ne_sep m _ _ _ _ _ _ _ _
      · rintro ⟨k, hk, hksep, -⟩
        exact hex ⟨k, hk, Or.inl hksep⟩

/-- Claim C5: with `maxiter >= 1`, if no iteration below `maxiter` triggers
perfect separation or satisfies the convergence criterion, the loop executes
exactly `maxiter` iterations (`history['iteration'] = maxiter` on the
returned result), a results object is still returned carrying the
last-iteration coefficients, and its converged flag is False; and if the
criterion is first satisfied at iteration `k` (no separation up to there),
the loop stops at iteration `k` and the result has converged = True. -/
theorem fit_pirls_maxiter_cap {n p : Nat} (m : ModelConfig n p) (s0 : Scratch n)
    (alpha : List ℚ) (start_params : Option (Fin p → ℚ)) (maxiter : Nat) (tol : ℚ)
    (scale : Option ℚ) (weights : Option (Fin n → ℚ))
    (hmax : 1 ≤ maxiter) :
    ((∀ k, k < maxiter →
        pirls_sep_at m (pirls_spl_s m alpha) (pirls_data_weights weights)
          (pirlsInitState m start_params (pirls_data_weights weights)) k = false ∧
        pirls_conv_at m (pirls_spl_s m alpha) (pirls_data_weights weights)
          (pirlsInitState m start_params (pirls_data_weights weights)) tol k = false) →
      ∃ r, (fit_pirls m s0 alpha start_params maxiter tol scale weights).2 = Except.ok r ∧
        r.iteration = maxiter ∧ r.converged = false ∧
        ∀ w, (pirlsIterStates m (pirls_spl_s m alpha) (pirls_data_weights weights)
            (pirlsInitState m start_params (pirls_data_weights weights)) maxiter).wres
              = some w →
          r.results.params = w.params)
    ∧ ∀ k, k < maxiter →
        pirls_sep_at m (pirls_spl_s m alpha) (pirls_data_weights weights)
          (pirlsInitState m start_params (pirls_data_weights weights)) k = false →
        pirls_conv_at m (pirls_spl_s m alpha) (pirls_data_weights weights)
          (pirlsInitState m start_params (pirls_data_weights weights)) tol k = true →
        (∀ j, j < k →
          pirls_sep_at m (pirls_spl_s m alpha) (pirls_data_weights weights)
            (pirlsInitState m start_params (pirls_data_weights weights)) j = false ∧
          pirls_conv_at m (pirls_spl_s m alpha) (pirls_data_weights weights)
            (pirlsInitState m start_params (pirls_data_weights weights)) tol j = false) →
        ∃ r, (fit_pirls m s0 alpha start_params maxiter tol scale weights).2 = Except.ok r ∧
          r.iteration = k + 1 ∧ r.converged = true := by
  have hmaxne : maxiter ≠ 0 := by omega
  constructor
  · intro hall
    have hloop := pirlsLoopF_exhaust m (pirls_spl_s m alpha) (pirls_data_weights weights) tol
      maxiter 0 (pirlsInitState m start_params (pirls_data_weights weights))
      (fun k hk => ⟨(hall k hk).1,
        by simpa [pirls_conv_at, Nat.zero_add] using (hall k hk).2⟩)
    obtain ⟨maxpred, hmp⟩ : ∃ t, maxiter = t + 1 := ⟨maxiter - 1, by omega⟩
    have hws := pirlsIterStates_wres_isSome m (pirls_spl_s m alpha)
      (pirls_data_weights weights)
      (pirlsInitState m start_params (pirls_data_weights weights)) maxpred
    rw [← hmp] at hws
    obtain ⟨w, hw⟩ := Option.isSome_iff_exists.mp hws
    simp only [fit_pirls, if_neg hmaxne, hloop, hw, Option.map_some]
    simp only [pirls_finalize]
    refine ⟨_, rfl, ?_, rfl, ?_⟩
    · show 0 + maxiter - 1 + 1 = maxiter
      omega
    · intro w2 hw2
      cases hw2
      rfl
  · intro k hk hksep hkconv hkpre
    have hloop := pirlsLoopF_conv m (pirls_spl_s m alpha) (pirls_data_weights weights) tol
      maxiter k 0 (pirlsInitState m start_params (pirls_data_weights weights)) hk hksep
      (by simpa [pirls_conv_at, Nat.zero_add] using hkconv)
      (fun j hj => ⟨(hkpre j hj).1,
        by simpa [pirls_conv_at, Nat.zero_add] using (hkpre j hj).2⟩)
    have hws := pirlsIterStates_wres_isSome m (pirls_spl_s m alpha)
      (pirls_data_weights weights)
      (pirlsInitState m start_params (pirls_data_weights weights)) k
    obtain ⟨w, hw⟩ := Option.isSome_iff_exists.mp hws
    simp only [fit_pirls, if_neg hmaxne, hloop, hw, Option.map_some]
    simp only [pirls_finalize]
    refine ⟨_, rfl, ?_, rfl⟩
    show 0 + k + 1 = k + 1
    omega

/-- Claim C6 (code evaluation): calling `_fit_pirls` with `maxiter == 0` and
supplied starting coefficients does skip the iteration loop, but the
degenerate `lm.RegressionResults(self, start_params, None)` carries
`normalized_cov_params = None`, and `GLMGAMResults.__init__` unconditionally
computes `edf`, evaluating `None * scale` — a `TypeError`.  No results object
carrying the starting coefficients is ever returned. -/
theorem fit_pirls_maxiter_zero {n p : Nat} (m : ModelConfig n p) (s0 : Scratch n)
    (alpha : List ℚ) (sp : Fin p → ℚ) (tol : ℚ) (scale : Option ℚ)
    (weights : Option (Fin n → ℚ)) :
    (fit_pirls m s0 alpha (some sp) 0 tol scale weights).2
      = Except.error PirlsError.typeErrorNone := by
  simp [fit_pirls, pirls_finalize]

/-- The outcome view of the finalization step does not depend on the incoming
mutable model state (only the scale-related fields do). -/
theorem pirls_finalize_view_scratch_invariant {n p : Nat} (m : ModelConfig n p)
    (sA sB : Scratch n) (mu : Fin n → ℚ) (preParams : Option (Fin p → ℚ))
    (preNcov : Option (Matrix (Fin p) (Fin p) ℚ)) (history : History p)
    (iterVar : Nat) (conv : Bool) (scaletype : Option ℚ) :
    fit_history_view (pirls_finalize m sA mu preParams preNcov history iterVar conv scaletype).2
      = fit_history_view (pirls_finalize m sB mu preParams preNcov history iterVar conv scaletype).2 := by
  cases preParams <;> cases preNcov <;>
    simp [pirls_finalize, fit_history_view, mkGLMGAMResults, Except.map]

/-- The fit-history view of a `_fit_pirls` outcome does not depend on the
incoming mutable model state. -/
theorem fit_pirls_view_scratch_invariant {n p : Nat} (m : ModelConfig n p)
    (sA sB : Scratch n) (alpha : List ℚ) (start_params : Option (Fin p → ℚ))
    (maxiter : Nat) (tol : ℚ) (scale : Option ℚ) (weights : Option (Fin n → ℚ)) :
    fit_history_view (fit_pirls m sA alpha start_params maxiter tol scale weights).2
      = fit_history_view (fit_pirls m sB alpha start_params maxiter tol scale weights).2 := by
  by_cases hmax : maxiter = 0
  · subst hmax
    simp only [fit_pirls, if_pos rfl]
    exact pirls_finalize_view_scratch_invariant m _ _ _ _ _ _ _ _ _
  · simp only [fit_pirls, if_neg hmax]
    rcases hloopdef : pirlsLoopF m (pirls_spl_s m alpha) (pirls_data_weights weights) tol
        maxiter 0 (pirlsInitState m start_params (pirls_data_weights weights)) with
      ⟨st, iterVar, conv, err⟩
    cases err with
    | none => exact pirls_finalize_view_scratch_invariant m _ _ _ _ _ _ _ _ _
    | some e => rfl

/-- Claim C9: the P-IRLS engine is deterministic across calls — running
`_fit_pirls` a second time with identical inputs, starting from the mutable
model state the first call left behind, produces the identical fit history
(per-iteration coefficient and deviance sequences, iteration count, converged
flag and final coefficients); the state the first call scribbled on the model
does not influence the second call's history. -/
theorem fit_pirls_idempotent_history {n p : Nat} (m : ModelConfig n p) (s0 : Scratch n)
    (alpha : List ℚ) (start_params : Option (Fin p → ℚ)) (maxiter : Nat) (tol : ℚ)
    (scale : Option ℚ) (weights : Option (Fin n → ℚ)) :
    fit_history_view
        (fit_pirls m (fit_pirls m s0 alpha start_params maxiter tol scale weights).1
          alpha start_params maxiter tol scale weights).2
      = fit_history_view (fit_pirls m s0 alpha start_params maxiter tol scale weights).2 :=
  fit_pirls_view_scratch_invariant m _ s0 alpha start_params maxiter tol scale weights

/-- Witness for C5 on the concrete one-observation model with `maxiter = 1`:
neither separation nor convergence occurs at iteration 0, and the run returns
a result with `history['iteration'] = 1` and converged = False. -/
theorem fit_pirls_maxiter_cap_witness :
    (1 ≤ 1) ∧
    ∃ r, (fit_pirls modelC scratchC [1] (some fun _ => 0) 1 np_atol none none).2
        = Except.ok r ∧
      r.iteration = 1 ∧ r.converged = false ∧
      ∀ w, (pirlsIterStates modelC (pirls_spl_s modelC [1]) (pirls_data_weights none)
          (pirlsInitState modelC (some fun _ => 0) (pirls_data_weights none)) 1).wres
            = some w →
        r.results.params = w.params := by
  have hall : ∀ k, k < 1 →
      pirls_sep_at modelC (pirls_spl_s modelC [1]) (pirls_data_weights none)
        (pirlsInitState modelC (some fun _ => 0) (pirls_data_weights none)) k = false ∧
      pirls_conv_at modelC (pirls_spl_s modelC [1]) (pirls_data_weights none)
        (pirlsInitState modelC (some fun _ => 0) (pirls_data_weights none)) np_atol k
          = false := by
    intro k hk
    have hk0 : k = 0 := by omega
    subst hk0
    constructor
    · simp [pirls_sep_at, pirlsIterStates, pirlsBody, pirlsInitState, pirls_start,
        pirls_history0, pirls_data_weights, pirls_spl_s, penalized_wls,
        make_augmented_matrix, update_history, modelC, collabC, np_allclose_zero,
        np_atol, Matrix.mulVec, Matrix.dotProduct, Fin.sum_univ_one, Matrix.of_apply]
      norm_num
    · rfl
  exact ⟨le_refl 1,
    (fit_pirls_maxiter_cap modelC scratchC [1] (some fun _ => 0) 1 np_atol none none
      (le_refl 1)).1 hall⟩

/-- Claim C10, counterexample: on the concrete one-observation model with the
`df_resid`-reading scale rule, the fitted result of a one-iteration P-IRLS run
has edf summing to 0 (cached with the constructor's incoming scale 0, from
`df_resid = 0`) while its hat-matrix diagonal — computed on access with the
post-update scale 1 — sums to 1, so the sum of `edf` and the hat-matrix trace
differ. -/
theorem edf_sum_ne_hat_trace :
    ((fit_pirls modelC scratchC [1] (some fun _ => 0) 1 np_atol none none).2.map
        (fun r => ((∑ j, r.results.edf j), ∑ i, gam_hat_matrix_diag modelC r.results i))
      = Except.ok ((0 : ℚ), (1 : ℚ))) ∧ (0 : ℚ) ≠ 1 := by
  constructor
  · have hall : ∀ k, k < 1 →
        pirls_sep_at modelC (pirls_spl_s modelC [1]) (pirls_data_weights none)
          (pirlsInitState modelC (some fun _ => 0) (pirls_data_weights none)) k = false ∧
        check_convergence
          ((pirlsIterStates modelC (pirls_spl_s modelC [1]) (pirls_data_weights none)
            (pirlsInitState modelC (some fun _ => 0)
              (pirls_data_weights none)) (k + 1)).history.deviance)
          (0 + k) np_atol 0 = false := by
      intro k hk
      have hk0 : k = 0 := by omega
      subst hk0
      constructor
      · simp [pirls_sep_at, pirlsIterStates, pirlsBody, pirlsInitState, pirls_start,
          pirls_history0, pirls_data_weights, pirls_spl_s, penalized_wls,
          make_augmented_matrix, update_history, modelC, collabC, np_allclose_zero,
          np_atol, Matrix.mulVec, Matrix.dotProduct, Fin.sum_univ_one, Matrix.of_apply]
        norm_num
      · rfl
    have hloop := pirlsLoopF_exhaust modelC (pirls_spl_s modelC [1]) (pirls_data_weights none)
      np_atol 1 0 (pirlsInitState modelC (some fun _ => 0) (pirls_data_weights none)) hall
    have hw : (pirlsIterStates modelC (pirls_spl_s modelC [1]) (pirls_data_weights none)
        (pirlsInitState modelC (some fun _ => 0) (pirls_data_weights none)) 1).wres
          = some ⟨fun _ => 0, Matrix.of fun _ _ => 1⟩ := rfl
    simp only [fit_pirls, if_neg one_ne_zero, hloop, hw, Option.map, pirls_finalize,
      Except.map]
    simp [mkGLMGAMResults, gam_hat_matrix_diag, get_hat_matrix_diag_axis0,
      get_hat_matrix_diag_axis1, hat_matrix_terms, modelC, collabC, scratchC,
      Fin.sum_univ_one, Matrix.of_apply, Matrix.smul_apply, Matrix.mul_apply,
      Matrix.transpose_apply]
  · norm_num

/-- Claim C10, amended: whenever the family's scale rule returns the same
scale the `GLMGAMResults` constructor received (so the cached `edf` and the
later `hat_matrix_diag` use the same `hess_inv`), the sum of the
per-coefficient edf vector equals the hat-matrix trace — both are the grand
total of the same n×p elementwise product matrix, summed over different
axes. -/
theorem edf_sum_eq_hat_trace_same_scale {n p : Nat} (m : ModelConfig n p)
    (scaletype : Option ℚ) (params : Fin p → ℚ) (ncov : Matrix (Fin p) (Fin p) ℚ)
    (scale : ℚ)
    (hscale : m.collab.estimate_scale scaletype (m.collab.fittedvalues params)
        ((n : ℚ) - ∑ j, get_hat_matrix_diag_axis0 m params ncov scale j) = scale) :
    (∑ j, (mkGLMGAMResults m scaletype params ncov scale).edf j)
      = ∑ i, gam_hat_matrix_diag m (mkGLMGAMResults m scaletype params ncov scale) i := by
  simp only [mkGLMGAMResults, gam_hat_matrix_diag]
  rw [hscale]
  simp only [get_hat_matrix_diag_axis0, get_hat_matrix_diag_axis1]
  exact Finset.sum_comm

/-- Witness for the amended C10 on the constant-scale model `modelD`. -/
theorem edf_sum_eq_hat_trace_same_scale_witness :
    (modelD.collab.estimate_scale none (modelD.collab.fittedvalues fun _ => 1)
        (((1 : Nat) : ℚ) - ∑ j, get_hat_matrix_diag_axis0 modelD (fun _ => 1)
          (Matrix.of fun _ _ => 1) 1 j) = 1) ∧
    (∑ j, (mkGLMGAMResults modelD none (fun _ => 1) (Matrix.of fun _ _ => 1) 1).edf j)
      = ∑ i, gam_hat_matrix_diag modelD
          (mkGLMGAMResults modelD none (fun _ => 1) (Matrix.of fun _ _ => 1) 1) i := by
  have hscale : modelD.collab.estimate_scale none (modelD.collab.fittedvalues fun _ => 1)
      (((1 : Nat) : ℚ) - ∑ j, get_hat_matrix_diag_axis0 modelD (fun _ => 1)
        (Matrix.of fun _ _ => 1) 1 j) = 1 := rfl
  exact ⟨hscale,
    edf_sum_eq_hat_trace_same_scale modelD none (fun _ => 1) (Matrix.of fun _ _ => 1) 1 hscale⟩

end StatsmodelsGam
